import Mathlib

/-!
# Client configuration of the Vault CLI: key validation and the forwarding loaders

A shallow embedding of `command/client-config.go`.

* `checkHCLKeys` walks the items of an HCL syntax node and gathers one
  `invalid key` error per item whose first key is not permitted.
* `ClientConfig`, `LoadClientConfig` and `ParseClientConfig` forward to the
  package `command/client-config` and convert the pointer they get back.

The syntax tree (`ast`, `token`) and the aggregate error (`multierror`) come
from libraries; they are embedded as far as `checkHCLKeys` reads them (of an
item: its keys, the position of its assignment operator and its value).
Go panics are explicit: a function that can panic returns `Except Panic _`.
-/

namespace Vault

/-! ## Library types: `token` and `ast` of hashicorp/hcl -/

/-- Source position `token.Pos`. The zero position (line 0) is what a field of
this type holds when the parser never set it. -/
structure Pos where
  Filename : String
  Offset : Int
  Line : Int
  Column : Int
deriving DecidableEq, Repr

/-- The dynamic value inside the `interface{}` that `Token.Value()` returns.
A float is kept by its source text. -/
inductive Value where
  | string (s : String)
  | bool (b : Bool)
  | int64 (i : Int)
  | float64 (text : String)
deriving DecidableEq, Repr

/-- A lexical token `token.Token`. `Value` stands for the outcome of the method
`Value()`: `none` when the method panics (a token kind that has no value, or a
text that does not unquote), else the value it returns. -/
structure Token where
  Pos : Pos
  Text : String
  JSON : Bool
  Value : Option Value
deriving DecidableEq, Repr

/-- Key of an object item, `ast.ObjectKey`. -/
structure ObjectKey where
  Token : Token
deriving DecidableEq, Repr

/-- Literal node `ast.LiteralType`. -/
structure LiteralType where
  Token : Token
deriving DecidableEq, Repr

/-- Comment node `ast.Comment`. -/
structure Comment where
  Start : Pos
  Text : String
deriving DecidableEq, Repr

/-- Comment group node `ast.CommentGroup`. -/
structure CommentGroup where
  List : List (Option Comment)
deriving DecidableEq, Repr

mutual
/-- Value of the interface `ast.Node`: the nil interface, or a pointer (which
may itself be nil, written `none`) to one of the node structs. Nodes are held
by pointer, as the library builds and hands them on. -/
inductive Node where
  | nil
  | file (p : Option File)
  | objectList (p : Option ObjectList)
  | objectKey (p : Option ObjectKey)
  | objectItem (p : Option ObjectItem)
  | objectType (p : Option ObjectType)
  | literalType (p : Option LiteralType)
  | listType (p : Option ListType)
  | comment (p : Option Comment)
  | commentGroup (p : Option CommentGroup)
/-- Struct `ast.File`. -/
inductive File where
  | mk (Node : Node)
/-- Struct `ast.ObjectList`: the items, each a pointer. -/
inductive ObjectList where
  | mk (Items : List (Option ObjectItem))
/-- Struct `ast.ObjectItem`: keys, position of the assignment operator, value. -/
inductive ObjectItem where
  | mk (Keys : List (Option ObjectKey)) (Assign : Pos) (Val : Node)
/-- Struct `ast.ObjectType`: braces and the wrapped list pointer. -/
inductive ObjectType where
  | mk (Lbrace : Pos) (Rbrace : Pos) (List : Option ObjectList)
/-- Struct `ast.ListType`. -/
inductive ListType where
  | mk (Lbrack : Pos) (Rbrack : Pos) (List : List Node)
end

/-- Field `Items` of an object list. -/
def ObjectList.Items : ObjectList → List (Option ObjectItem)
  | .mk items => items

/-- Field `Keys` of an object item. -/
def ObjectItem.Keys : ObjectItem → List (Option ObjectKey)
  | .mk keys _ _ => keys

/-- Field `Assign` of an object item. -/
def ObjectItem.Assign : ObjectItem → Pos
  | .mk _ assign _ => assign

/-- Field `Val` of an object item. -/
def ObjectItem.Val : ObjectItem → Node
  | .mk _ _ val => val

/-- Field `List` of an object type. -/
def ObjectType.List : ObjectType → Option ObjectList
  | .mk _ _ list => list

/-- What `%T` prints for a node: the dynamic type of the interface value. -/
def Node.typeName : Node → String
  | .nil => "<nil>"
  | .file _ => "*ast.File"
  | .objectList _ => "*ast.ObjectList"
  | .objectKey _ => "*ast.ObjectKey"
  | .objectItem _ => "*ast.ObjectItem"
  | .objectType _ => "*ast.ObjectType"
  | .literalType _ => "*ast.LiteralType"
  | .listType _ => "*ast.ListType"
  | .comment _ => "*ast.Comment"
  | .commentGroup _ => "*ast.CommentGroup"

/-! ## Go runtime: panics and errors -/

/-- The run-time panics `checkHCLKeys` can reach. -/
inductive Panic where
  | nilDereference
  | indexOutOfRange (index : Nat) (length : Nat)
  | typeAssertion
  | tokenValue
deriving DecidableEq, Repr

/-- A non-nil value of the interface `error`. `errorString` is what
`fmt.Errorf` makes; `multierror` is a `*multierror.Error`, whose field `Errors`
is kept as the messages of the errors it wraps (`multierror.Append` flattens an
aggregate it is handed, so an aggregate never wraps an aggregate). -/
inductive GoError where
  | errorString (s : String)
  | multierror (Errors : List String)
deriving DecidableEq, Repr

deriving instance DecidableEq for Except

/-- Dereference of a pointer. -/
def deref {α : Type} : Option α → Except Panic α
  | none => .error .nilDereference
  | some a => .ok a

/-- Slice indexing `xs[i]`. -/
def index {α : Type} (xs : List α) (i : Nat) : Except Panic α :=
  match xs.get? i with
  | some a => .ok a
  | none => .error (.indexOutOfRange i xs.length)

/-- The call `tok.Value()`. -/
def Token.callValue (tok : Token) : Except Panic Vault.Value :=
  match tok.Value with
  | some v => .ok v
  | none => .error .tokenValue

/-- The type assertion `v.(string)`. -/
def assertString : Value → Except Panic String
  | .string s => .ok s
  | _ => .error .typeAssertion

/-- Formatting of a Go `int` by the verb `%d`. -/
def formatInt (n : Int) : String := toString n

/-- The errors an error value contributes when appended to an aggregate. -/
def GoError.flatten : GoError → List String
  | .errorString s => [s]
  | .multierror es => es

/-- The call `multierror.Append(err, e)` with one appended error: an aggregate
`err` is extended, a nil `err` starts a fresh aggregate, and any other `err`
becomes the first entry of a fresh aggregate. -/
def multierrorAppend (err : Option GoError) (e : GoError) : GoError :=
  match err with
  | some (.multierror es) => .multierror (es ++ e.flatten)
  | some (.errorString s) => .multierror ([s] ++ e.flatten)
  | none => .multierror ([] ++ e.flatten)

/-! ## `checkHCLKeys` -/

/-- The map `validMap` as the list of its keys; inserting a key that is
present changes nothing. -/
def mapInsert (m : List String) (v : String) : List String :=
  if v ∈ m then m else m ++ [v]

/-- Lookup `_, ok := validMap[key]`. -/
def mapHas (m : List String) (key : String) : Bool :=
  decide (key ∈ m)

/-- The loop that fills `validMap` from `valid`. -/
def buildValidMap (valid : List String) : List String :=
  valid.foldl mapInsert []

/-- The expression `item.Keys[0].Token.Value().(string)`. -/
def itemKey (item : Option ObjectItem) : Except Panic String := do
  let it ← deref item
  let k ← index it.Keys 0
  let k ← deref k
  let v ← k.Token.callValue
  assertString v

/-- The error made for an offending item. -/
def invalidKeyError (key : String) (line : Int) : GoError :=
  .errorString ("invalid key '" ++ key ++ "' on line " ++ formatInt line)

/-- One round of the loop over `list.Items`. -/
def checkItem (validMap : List String) (result : Option GoError)
    (item : Option ObjectItem) : Except Panic (Option GoError) := do
  let key ← itemKey item
  let it ← deref item
  if !mapHas validMap key then
    pure (some (multierrorAppend result (invalidKeyError key it.Assign.Line)))
  else
    pure result

/-- The function `checkHCLKeys(node, valid)`: the returned `error` is `none`
for nil. -/
def checkHCLKeys (node : Node) (valid : List String) : Except Panic (Option GoError) :=
  let checkList (list : Option ObjectList) : Except Panic (Option GoError) := do
    let validMap := buildValidMap valid
    let l ← deref list
    l.Items.foldlM (checkItem validMap) none
  match node with
  | .objectList n => checkList n
  | .objectType n => do
      let o ← deref n
      checkList o.List
  | n => pure (some (.errorString ("cannot check HCL keys of type " ++ n.typeName)))

/-! ## Vocabulary of the statements -/

/-- First key of an item when `itemKey` yields one, `none` when it panics. -/
def keyOf (item : Option ObjectItem) : Option String :=
  match itemKey item with
  | .ok k => some k
  | .error _ => none

/-- Line of the assignment operator of an item (0 for a nil item). -/
def assignLine (item : Option ObjectItem) : Int :=
  match item with
  | some it => it.Assign.Line
  | none => 0

/-- An item is offending when it has a first key and that key is not permitted. -/
def offending (valid : List String) (item : Option ObjectItem) : Bool :=
  match keyOf item with
  | some k => decide (k ∉ valid)
  | none => false

/-- The text `invalid key 'K' on line N`. -/
def violationText (key : String) (line : Int) : String :=
  "invalid key '" ++ key ++ "' on line " ++ formatInt line

/-- The violation text of an item (empty for an item without a first key). -/
def itemViolation (item : Option ObjectItem) : String :=
  match keyOf item with
  | some k => violationText k (assignLine item)
  | none => ""

/-- Every item is a non-nil pointer whose first key exists and holds a string. -/
def wellFormed (items : List (Option ObjectItem)) : Prop :=
  ∀ item ∈ items, (keyOf item).isSome = true

instance (items : List (Option ObjectItem)) : Decidable (wellFormed items) := by
  unfold wellFormed; infer_instance

/-- The violations inside a returned error: the entries of an aggregate, none
for nil and for an error that is not an aggregate. -/
def violations (r : Option GoError) : List String :=
  match r with
  | some (.multierror es) => es
  | _ => []

/-- The error value holding the given violations: nil when there is none. -/
def aggregate (vs : List String) : Option GoError :=
  match vs with
  | [] => none
  | v :: rest => some (.multierror (v :: rest))

/-- The item list of a supported node whose list pointer is not nil. -/
def itemsOf (node : Node) : Option (List (Option ObjectItem)) :=
  match node with
  | .objectList (some l) => some l.Items
  | .objectType (some o) => o.List.map ObjectList.Items
  | _ => none

/-- The entries an accumulated error already holds. -/
def held (acc : Option GoError) : List String :=
  match acc with
  | some e => e.flatten
  | none => []

/-- The type switch of `checkHCLKeys` has a case for the node. -/
def Node.isSupported : Node → Bool
  | .objectList _ => true
  | .objectType _ => true
  | _ => false

/-- Line on which the first key of an item stands, `Keys[0].Token.Pos.Line`. -/
def keyLine (item : Option ObjectItem) : Option Int :=
  match item with
  | some it =>
    match it.Keys.head? with
    | some (some k) => some k.Token.Pos.Line
    | _ => none
  | none => none

/-- First keys of the offending items, in item order, one entry per item. -/
def offendingKeys (valid : List String) (items : List (Option ObjectItem)) : List String :=
  (items.filter (offending valid)).filterMap keyOf

/-- Position of the violation of item number `i`: the number of offending items before it. -/
def violationIndex (valid : List String) (items : List (Option ObjectItem)) (i : Nat) : Nat :=
  (items.take i).countP (offending valid)

/-- Modelled from the spec: the permitted key set handed to the validator by the
parser of package `command/client-config`, which is not part of this file. -/
def permittedKeys : List String := ["token_helper"]

/-! ## Sample documents -/

/-- Position at the given offset, line and column of an unnamed file. -/
def at_ (offset line column : Int) : Pos := ⟨"", offset, line, column⟩

/-- The zero position. -/
def noPos : Pos := ⟨"", 0, 0, 0⟩

/-- A bare-word key. -/
def identKey (name : String) (pos : Pos) : Option ObjectKey :=
  some ⟨⟨pos, name, false, some (.string name)⟩⟩

/-- A quoted key of a JSON document. -/
def jsonKey (name : String) (pos : Pos) : Option ObjectKey :=
  some ⟨⟨pos, "\"" ++ name ++ "\"", true, some (.string name)⟩⟩

/-- A number literal. -/
def numberLit (text : String) (n : Int) (pos : Pos) : Node :=
  .literalType (some ⟨⟨pos, text, false, some (.int64 n)⟩⟩)

/-- Second item of the two-line JSON document: `"bogus_key": 1` on line 2. -/
def bogusItem : Option ObjectItem :=
  some (.mk [jsonKey "bogus_key" (at_ 23 2 2)] (at_ 34 2 13) (numberLit "1" 1 (at_ 36 2 15)))

/-- Items of the JSON document with `"token_helper": "x",` on line 1 and
`"bogus_key": 1` on line 2. -/
def twoLineItems : List (Option ObjectItem) :=
  [some (.mk [jsonKey "token_helper" (at_ 1 1 2)] (at_ 15 1 16)
      (.literalType (some ⟨⟨at_ 17 1 18, "\"x\"", true, some (.string "x")⟩⟩))),
   bogusItem]

/-- Root node of the two-line JSON document. -/
def twoLineDocument : Node := .objectList (some (.mk twoLineItems))

/-- Items of the document `bogus = 1` (line 1), `bogus = 2` (line 2). -/
def duplicateItems : List (Option ObjectItem) :=
  [some (.mk [identKey "bogus" (at_ 0 1 1)] (at_ 6 1 7) (numberLit "1" 1 (at_ 8 1 9))),
   some (.mk [identKey "bogus" (at_ 10 2 1)] (at_ 16 2 7) (numberLit "2" 2 (at_ 18 2 9)))]

/-- Root node of the document with the same unknown key twice. -/
def duplicateDocument : Node := .objectList (some (.mk duplicateItems))

/-- The item of the document `bogus` (line 1), `= 1` (line 2): key and
assignment operator on different lines. -/
def splitLineItem : Option ObjectItem :=
  some (.mk [identKey "bogus" (at_ 0 1 1)] (at_ 6 2 1) (numberLit "1" 1 (at_ 8 2 3)))

/-- Root node of the document whose only item is `splitLineItem`. -/
def splitLineDocument : Node := .objectList (some (.mk [splitLineItem]))

/-- The item of the document `bogus` followed by an empty block in braces on
line 1: it has no assignment operator, so `Assign` is the zero position. -/
def blockItem : Option ObjectItem :=
  some (.mk [identKey "bogus" (at_ 0 1 1)] noPos
    (.objectType (some (.mk (at_ 6 1 7) (at_ 7 1 8) (some (.mk []))))))

/-- Root node of the document whose only item is `blockItem`. -/
def blockDocument : Node := .objectList (some (.mk [blockItem]))

/-- An item without any key. -/
def keylessItem : Option ObjectItem := some (.mk [] noPos .nil)

/-- Two item pointers agree in what precedes the second key: both are nil, or
both are items with the same first entry of `Keys` (or both without keys) and
the same `Assign`; the keys after the first and the value are free. -/
def sameHead (a b : Option ObjectItem) : Prop :=
  match a, b with
  | none, none => True
  | some x, some y => x.Keys.head? = y.Keys.head? ∧ x.Assign = y.Assign
  | _, _ => False

/-- The item of the document `token_helper "bogus"` followed by an empty block
in braces on line 1: a labelled block, with two keys. -/
def labelledItem : Option ObjectItem :=
  some (.mk [identKey "token_helper" (at_ 0 1 1),
      some ⟨⟨at_ 13 1 14, "\"bogus\"", false, some (.string "bogus")⟩⟩] noPos
    (.objectType (some (.mk (at_ 21 1 22) (at_ 22 1 23) (some (.mk []))))))

/-- The item `labelledItem` with its label taken away and its value replaced. -/
def unlabelledItem : Option ObjectItem :=
  some (.mk [identKey "token_helper" (at_ 0 1 1)] noPos (numberLit "1" 1 (at_ 15 1 16)))

/-- An ObjectType node around the items of the two-line document. -/
def twoLineObject : Node :=
  .objectType (some (.mk (at_ 0 1 1) (at_ 37 2 16) (some (.mk twoLineItems))))

/-! ## The first key, read off the tree -/

/-- The string held by the first key of an item, read off the syntax tree: the
item is a non-nil pointer, its key list starts with a non-nil key, and the
value of that key's token is a string. `none` in every other case. -/
def firstKey : Option ObjectItem → Option String
  | some (.mk (some ⟨⟨_, _, _, some (.string K)⟩⟩ :: _) _ _) => some K
  | _ => none

/-- Every item of the list has a first key holding a string. -/
def keyed (items : List (Option ObjectItem)) : Prop :=
  ∀ item ∈ items, (firstKey item).isSome = true

instance (items : List (Option ObjectItem)) : Decidable (keyed items) := by
  unfold keyed; infer_instance

/-- The first key of the item holds a string that is not in the permitted list. -/
def notPermitted (valid : List String) (item : Option ObjectItem) : Bool :=
  match firstKey item with
  | some K => decide (K ∉ valid)
  | none => false

/-- The violation expected for an item: `invalid key 'K' on line N` with `K` the
string of its first key and `N` the line of its assignment operator in decimal
(empty for an item without such a key). -/
def expectedViolation (item : Option ObjectItem) : String :=
  match firstKey item with
  | some K => "invalid key '" ++ K ++ "' on line " ++ toString (assignLine item)
  | none => ""

/-- The item is a non-nil pointer and at least one of its keys, at any place in
the key list, is a non-nil key whose token value is a string. -/
def hasStringKey : Option ObjectItem → Bool
  | some it =>
    it.Keys.any (fun key =>
      match key with
      | some ⟨⟨_, _, _, some (.string _)⟩⟩ => true
      | _ => false)
  | none => false

/-- Item of the document `token_helper = "x"` on line 1. -/
def helperItem : Option ObjectItem :=
  some (.mk [identKey "token_helper" (at_ 0 1 1)] (at_ 13 1 14)
    (.literalType (some ⟨⟨at_ 15 1 16, "\"x\"", false, some (.string "x")⟩⟩)))

/-- Items of the document `token_helper = "x"` (line 1), `bogus = 1` (line 2),
`extra = 2` (line 3). -/
def threeLineItems : List (Option ObjectItem) :=
  [helperItem,
   some (.mk [identKey "bogus" (at_ 19 2 1)] (at_ 25 2 7) (numberLit "1" 1 (at_ 27 2 9))),
   some (.mk [identKey "extra" (at_ 29 3 1)] (at_ 35 3 7) (numberLit "2" 2 (at_ 37 3 9)))]

/-- Root node of the three-line document. -/
def threeLineDocument : Node := .objectList (some (.mk threeLineItems))

/-- A key whose token is the number `1`. -/
def numberKey : Option ObjectKey :=
  some ⟨⟨at_ 0 1 1, "1", false, some (.int64 1)⟩⟩

/-- An item whose first key holds a number and whose second key holds the
string `token_helper`. -/
def numberFirstItem : Option ObjectItem :=
  some (.mk [numberKey, identKey "token_helper" (at_ 2 1 3)] noPos
    (.objectType (some (.mk (at_ 15 1 16) (at_ 16 1 17) (some (.mk []))))))

/-- An item whose first key is a nil pointer and whose second key holds the
string `token_helper`. -/
def nilFirstItem : Option ObjectItem :=
  some (.mk [none, identKey "token_helper" (at_ 2 1 3)] noPos
    (.objectType (some (.mk (at_ 15 1 16) (at_ 16 1 17) (some (.mk []))))))

/-! ## The forwarding loaders -/

/-- The constant `DefaultClientConfigPath`. -/
def DefaultClientConfigPath : String := "~/.vaultrc"

/-- The constant `ClientConfigPathEnv`. -/
def ClientConfigPathEnv : String := "VAULT_CLIENT_CONFIG_PATH"

/-- Struct `DefaultClientConfig` of package `command`. -/
structure DefaultClientConfig where
  TokenHelper : String
deriving DecidableEq, Repr

namespace config

/-- Modelled from the spec: the configuration struct of package
`command/client-config`, whose declaration is missing. The pointer conversion
in package `command` needs it to have the fields of `DefaultClientConfig`. -/
structure DefaultClientConfig where
  TokenHelper : String
deriving DecidableEq, Repr

/-- Modelled from the spec: the error taxonomy of the resolver and the parser
of package `command/client-config`, which is missing. -/
inductive Error where
  | HomeDirectoryError
  | ConfigReadError (cause : String)
  | ParseError (detail : String)
  | InvalidKeyError (violations : List String)
deriving DecidableEq, Repr

/-- Modelled from the spec: what the file system's read primitive answers,
an external collaborator of the missing resolver. -/
inductive ReadResult where
  | contents (text : String)
  | notFound
  | failure (cause : String)
deriving DecidableEq, Repr

/-- Modelled from the spec: the external collaborators of the missing
resolver: the process environment, the home-directory resolver (`none` when the
home directory cannot be determined) and the file system. -/
structure World where
  getenv : String → Option String
  homeDir : Option String
  readFile : String → ReadResult

/-- What a loader or parser returns: the configuration pointer and the error. -/
abbrev Result := Option DefaultClientConfig × Option Error

/-- Modelled from the spec: path resolution of the missing resolver, first
match wins: the explicit path if non-empty, else the value of the environment
variable if set and non-empty, else the default path. -/
def resolvePath (w : World) (explicitPath : String) : String :=
  if explicitPath ≠ "" then explicitPath
  else
    match w.getenv ClientConfigPathEnv with
    | some v => if v ≠ "" then v else DefaultClientConfigPath
    | none => DefaultClientConfigPath

/-- Modelled from the spec: tilde expansion of the missing resolver: a `~` at
the head of the path becomes the home directory, and fails when the home
directory cannot be determined. -/
def expandTilde (w : World) (path : String) : Except Error String :=
  match path.data with
  | '~' :: rest =>
    match w.homeDir with
    | some home => .ok (home ++ String.mk rest)
    | none => .error .HomeDirectoryError
  | _ => .ok path

/-- Modelled from the spec: the file the missing resolver reads: an explicit
path verbatim, a path from the environment or the default after tilde
expansion. -/
def fileToRead (w : World) (explicitPath : String) : Except Error String :=
  if explicitPath ≠ "" then .ok explicitPath
  else expandTilde w (resolvePath w explicitPath)

/-- Modelled from the spec: reading and parsing in the missing resolver: an
absent file yields the zero-value configuration and no error, any other read
failure a `ConfigReadError`, and contents go to the parser, whose result is
handed on unchanged. -/
def loadFrom (parse : String → Result) (w : World) (file : String) : Result :=
  match w.readFile file with
  | .notFound => (some ⟨""⟩, none)
  | .failure cause => (none, some (.ConfigReadError cause))
  | .contents text => parse text

/-- Modelled from the spec: `LoadClientConfig` of package
`command/client-config`, which is missing (`resolve` of the spec). The parser
is a parameter. -/
def LoadClientConfig (parse : String → Result) (w : World) (explicitPath : String) : Result :=
  match fileToRead w explicitPath with
  | .error e => (none, some e)
  | .ok file => loadFrom parse w file

/-- Modelled from the spec: `ClientConfig` of package `command/client-config`,
which is missing (`current` of the spec). The package-level cache is passed in
and handed back: a cached value is returned as it is, else resolution runs with
an empty explicit path and only a result without error is cached. -/
def ClientConfig (parse : String → Result) (w : World) (cache : Option DefaultClientConfig) :
    Result × Option DefaultClientConfig :=
  match cache with
  | some c => ((some c, none), some c)
  | none =>
    match LoadClientConfig parse w "" with
    | (conf, none) => ((conf, none), conf)
    | (conf, some e) => ((conf, some e), none)

end config

/-- The pointer conversion `(*DefaultClientConfig)(conf)`: nil stays nil. -/
def convertPointer (conf : Option config.DefaultClientConfig) : Option DefaultClientConfig :=
  conf.map (fun c => ⟨c.TokenHelper⟩)

/-- The function `ParseClientConfig(contents)`, over `config.ParseClientConfig`. -/
def ParseClientConfig {ε : Type}
    (configParseClientConfig : String → Option config.DefaultClientConfig × Option ε)
    (contents : String) : Option DefaultClientConfig × Option ε :=
  let (conf, err) := configParseClientConfig contents
  (convertPointer conf, err)

/-- The function `LoadClientConfig(path)`, over `config.LoadClientConfig`, with
the result type of the value its body returns, `(*DefaultClientConfig)(conf)`,
which is the result type its two siblings declare. The source declares the
result as `*DefaultConfig`, a type that the file declares nowhere, so the
declaration does not type-check as written: see `loadClientConfigSignature`
and `LoadClientConfigAsDeclared`. -/
def LoadClientConfig {ε : Type}
    (configLoadClientConfig : String → Option config.DefaultClientConfig × Option ε)
    (path : String) : Option DefaultClientConfig × Option ε :=
  let (conf, err) := configLoadClientConfig path
  (convertPointer conf, err)

/-- The function `ClientConfig()`, over `config.ClientConfig`, whose package
state `σ` is passed in and handed back. -/
def ClientConfig {ε σ : Type}
    (configClientConfig : σ → (Option config.DefaultClientConfig × Option ε) × σ)
    (state : σ) : (Option DefaultClientConfig × Option ε) × σ :=
  let ((conf, err), state') := configClientConfig state
  ((convertPointer conf, err), state')

/-- The results of successive calls of `ClientConfig()`, one per world, the
cache carried from call to call. -/
def callsOf (parse : String → config.Result) :
    List config.World → Option config.DefaultClientConfig →
      List (Option DefaultClientConfig × Option config.Error)
  | [], _ => []
  | w :: ws, cache =>
    (ClientConfig (config.ClientConfig parse w) cache).1 ::
      callsOf parse ws (ClientConfig (config.ClientConfig parse w) cache).2

/-! ## The declarations of the three loaders -/

/-- The first result of a function declaration of the file: the named type
behind the pointer that the signature declares, and the named type behind the
pointer to which the return statement converts. -/
structure Signature where
  name : String
  declaredResult : String
  returnedResult : String
deriving DecidableEq, Repr

/-- The struct types that the file declares. -/
def declaredTypes : List String := ["DefaultClientConfig"]

/-- Declaration `func ClientConfig() (*DefaultClientConfig, error)`. -/
def clientConfigSignature : Signature :=
  ⟨"ClientConfig", "DefaultClientConfig", "DefaultClientConfig"⟩

/-- Declaration `func LoadClientConfig(path string) (*DefaultConfig, error)`,
whose body returns `(*DefaultClientConfig)(conf)`. -/
def loadClientConfigSignature : Signature :=
  ⟨"LoadClientConfig", "DefaultConfig", "DefaultClientConfig"⟩

/-- Declaration `func ParseClientConfig(contents string) (*DefaultClientConfig, error)`. -/
def parseClientConfigSignature : Signature :=
  ⟨"ParseClientConfig", "DefaultClientConfig", "DefaultClientConfig"⟩

/-- The declaration type-checks: its result type is declared and the value it
returns has that type. -/
def Signature.typeChecks (d : Signature) : Bool :=
  decide (d.declaredResult ∈ declaredTypes) && decide (d.returnedResult = d.declaredResult)

/-- The function `LoadClientConfig(path)` as the file declares it: a declaration
that does not type-check gives no function, and no call of it returns (`none`);
otherwise the call returns what `LoadClientConfig` returns. -/
def LoadClientConfigAsDeclared {ε : Type}
    (configLoadClientConfig : String → Option config.DefaultClientConfig × Option ε)
    (path : String) : Option (Option DefaultClientConfig × Option ε) :=
  if loadClientConfigSignature.typeChecks then
    some (LoadClientConfig configLoadClientConfig path)
  else none

/-! ## Sample worlds -/

/-- A stand-in parser for the examples: it knows the empty document and one
document that sets the token helper, and rejects the rest. -/
def sampleParse (text : String) : config.Result :=
  if text = "" then (some ⟨""⟩, none)
  else if text = "token_helper = \"helper\"" then (some ⟨"helper"⟩, none)
  else (none, some (.ParseError text))

/-- The override variable names a file that does not exist; the default file
exists and sets a token helper. -/
def overrideWorld : config.World where
  getenv := fun name => if name = ClientConfigPathEnv then some "/etc/vault/absent.hcl" else none
  homeDir := some "/home/user"
  readFile := fun file =>
    if file = "/home/user/.vaultrc" then .contents "token_helper = \"helper\"" else .notFound

/-- No override; the default file sets a token helper. -/
def helperWorld : config.World where
  getenv := fun _ => none
  homeDir := some "/home/user"
  readFile := fun file =>
    if file = "/home/user/.vaultrc" then .contents "token_helper = \"helper\"" else .notFound

/-- No override; the default file holds a document the parser rejects. -/
def brokenWorld : config.World where
  getenv := fun _ => none
  homeDir := some "/home/user"
  readFile := fun file =>
    if file = "/home/user/.vaultrc" then .contents "token_helper =" else .notFound

/-! ## Lemmas on the loop -/

theorem mem_foldl_mapInsert (valid m : List String) (k : String) :
    k ∈ valid.foldl mapInsert m ↔ k ∈ m ∨ k ∈ valid := by
  induction valid generalizing m with
  | nil => simp
  | cons v rest ih =>
    rw [List.foldl_cons, ih]
    unfold mapInsert
    by_cases h : v ∈ m
    · simp only [h, if_true, List.mem_cons]
      constructor
      · rintro (h1 | h1)
        · exact Or.inl h1
        · exact Or.inr (Or.inr h1)
      · rintro (h1 | h1 | h1)
        · exact Or.inl h1
        · exact Or.inl (h1 ▸ h)
        · exact Or.inr h1
    · simp only [h, if_false, List.mem_append, List.mem_singleton, List.mem_cons]
      tauto

theorem mapHas_buildValidMap (valid : List String) (k : String) :
    mapHas (buildValidMap valid) k = decide (k ∈ valid) := by
  unfold mapHas buildValidMap
  simp [mem_foldl_mapInsert]

theorem keyOf_eq_some {item : Option ObjectItem} {k : String} :
    keyOf item = some k ↔ itemKey item = .ok k := by
  unfold keyOf
  cases h : itemKey item <;> simp

theorem keyOf_eq_none {item : Option ObjectItem} :
    keyOf item = none ↔ ∃ p, itemKey item = .error p := by
  unfold keyOf
  cases h : itemKey item <;> simp

theorem itemKey_none : itemKey none = .error .nilDereference := rfl

/-- One round of the loop, by the outcome of reading the first key. -/
theorem checkItem_eq (vm : List String) (acc : Option GoError) (item : Option ObjectItem) :
    checkItem vm acc item =
      match itemKey item with
      | .error p => .error p
      | .ok k =>
        if mapHas vm k then .ok acc
        else .ok (some (multierrorAppend acc (invalidKeyError k (assignLine item)))) := by
  cases item with
  | none => rfl
  | some it =>
    unfold checkItem
    cases h : itemKey (some it) with
    | error p => rfl
    | ok k =>
      cases hm : mapHas vm k <;> simp [deref, assignLine, hm, bind, Except.bind, pure, Except.pure]

theorem checkItem_error (vm : List String) (acc : Option GoError) {item : Option ObjectItem}
    {p : Panic} (h : itemKey item = .error p) : checkItem vm acc item = .error p := by
  rw [checkItem_eq, h]

theorem checkItem_ok (valid : List String) (acc : Option GoError) {item : Option ObjectItem}
    {k : String} (h : itemKey item = .ok k) :
    checkItem (buildValidMap valid) acc item =
      if k ∈ valid then .ok acc
      else .ok (some (multierrorAppend acc (invalidKeyError k (assignLine item)))) := by
  rw [checkItem_eq, h]
  simp only [mapHas_buildValidMap, decide_eq_true_eq]

theorem bind_error {α β : Type} (p : Panic) (f : α → Except Panic β) :
    ((Except.error p : Except Panic α) >>= f) = .error p := rfl

theorem bind_ok {α β : Type} (a : α) (f : α → Except Panic β) :
    ((Except.ok a : Except Panic α) >>= f) = f a := rfl

/-- Once an error is recorded, the loop never ends with nil. -/
theorem foldlM_some_ne_none (vm : List String) (items : List (Option ObjectItem)) (e : GoError) :
    items.foldlM (checkItem vm) (some e) ≠ .ok none := by
  induction items generalizing e with
  | nil => simp [List.foldlM, pure, Except.pure]
  | cons item rest ih =>
    rw [List.foldlM_cons, checkItem_eq]
    cases h : itemKey item with
    | error p => simp [bind_error]
    | ok k =>
      cases hm : mapHas vm k
      · simpa [bind_ok, hm] using ih _
      · simpa [bind_ok, hm] using ih e

/-- The loop ends with nil exactly when every item has a permitted first key. -/
theorem foldlM_none_iff (valid : List String) (items : List (Option ObjectItem)) :
    items.foldlM (checkItem (buildValidMap valid)) none = .ok none ↔
      ∀ item ∈ items, ∃ k, keyOf item = some k ∧ k ∈ valid := by
  induction items with
  | nil => simp [List.foldlM, pure, Except.pure]
  | cons item rest ih =>
    rw [List.foldlM_cons]
    cases h : itemKey item with
    | error p =>
      have hk : keyOf item = none := keyOf_eq_none.mpr ⟨p, h⟩
      rw [checkItem_error _ _ h, bind_error]
      simp [hk]
    | ok k =>
      have hk : keyOf item = some k := keyOf_eq_some.mpr h
      rw [checkItem_ok _ _ h]
      by_cases hv : k ∈ valid
      · rw [if_pos hv, bind_ok, ih]
        simp [hk, hv]
      · rw [if_neg hv, bind_ok]
        have := foldlM_some_ne_none (buildValidMap valid) rest
          (multierrorAppend none (invalidKeyError k (assignLine item)))
        simp [hv, hk, this]

/-- The loop on well-formed items: the accumulated error is extended by the
violation of each offending item, in item order. -/
theorem foldlM_wellFormed (valid : List String) (items : List (Option ObjectItem))
    (hwf : wellFormed items) (acc : Option GoError) :
    items.foldlM (checkItem (buildValidMap valid)) acc =
      .ok (match (items.filter (offending valid)).map itemViolation with
           | [] => acc
           | v :: vs => some (.multierror (held acc ++ v :: vs))) := by
  induction items generalizing acc with
  | nil => simp [List.foldlM, pure, Except.pure]
  | cons item rest ih =>
    have hrest : wellFormed rest := fun it hit => hwf it (List.mem_cons_of_mem _ hit)
    have hitem : (keyOf item).isSome = true := hwf item (List.mem_cons_self _ _)
    obtain ⟨k, hk⟩ := Option.isSome_iff_exists.mp hitem
    have hik : itemKey item = .ok k := keyOf_eq_some.mp hk
    rw [List.foldlM_cons, checkItem_ok _ _ hik]
    have hviol : itemViolation item = violationText k (assignLine item) := by
      simp [itemViolation, hk]
    by_cases hv : k ∈ valid
    · have hoff : offending valid item = false := by simp [offending, hk, hv]
      rw [if_pos hv, bind_ok, ih hrest, List.filter_cons_of_neg (by simp [hoff])]
    · have hoff : offending valid item = true := by simp [offending, hk, hv]
      rw [if_neg hv, bind_ok, ih hrest, List.filter_cons_of_pos hoff, List.map_cons, hviol]
      have hheld : held (some (multierrorAppend acc (invalidKeyError k (assignLine item))))
          = held acc ++ [violationText k (assignLine item)] := by
        cases acc with
        | none => rfl
        | some e => cases e <;> rfl
      cases hrs : (rest.filter (offending valid)).map itemViolation with
      | nil =>
        cases acc with
        | none => rfl
        | some e => cases e <;> rfl
      | cons v vs =>
        simp only [hheld, List.append_assoc, List.singleton_append]

/-- On a supported node with a list, `checkHCLKeys` is the loop over the items. -/
theorem checkHCLKeys_eq_loop (node : Node) (items : List (Option ObjectItem))
    (h : itemsOf node = some items) (valid : List String) :
    checkHCLKeys node valid = items.foldlM (checkItem (buildValidMap valid)) none := by
  cases node with
  | objectList p =>
    cases p with
    | none => simp [itemsOf] at h
    | some l =>
      simp only [itemsOf, Option.some.injEq] at h
      subst h
      rfl
  | objectType p =>
    cases p with
    | none => simp [itemsOf] at h
    | some o =>
      cases o with
      | mk lb rb list =>
        cases list with
        | none => simp [itemsOf, ObjectType.List] at h
        | some l =>
          simp only [itemsOf, ObjectType.List, Option.map_some', Option.some.injEq] at h
          subst h
          rfl
  | nil => simp [itemsOf] at h
  | file _ => simp [itemsOf] at h
  | objectKey _ => simp [itemsOf] at h
  | objectItem _ => simp [itemsOf] at h
  | literalType _ => simp [itemsOf] at h
  | listType _ => simp [itemsOf] at h
  | comment _ => simp [itemsOf] at h
  | commentGroup _ => simp [itemsOf] at h

/-- On a well-formed supported node the result is the aggregate of the
violations of the offending items, in item order. -/
theorem checkHCLKeys_wellFormed (node : Node) (items : List (Option ObjectItem))
    (h : itemsOf node = some items) (hwf : wellFormed items) (valid : List String) :
    checkHCLKeys node valid =
      .ok (aggregate ((items.filter (offending valid)).map itemViolation)) := by
  rw [checkHCLKeys_eq_loop node items h, foldlM_wellFormed valid items hwf none]
  cases (items.filter (offending valid)).map itemViolation <;> rfl

theorem violations_aggregate (vs : List String) : violations (aggregate vs) = vs := by
  cases vs <;> rfl

/-! ## Lemmas on positions in a filtered list -/

/-- An element that passes the filter sits in the filtered list at the position
given by the number of passing elements before it. -/
theorem filter_getElem?_countP {α : Type} (p : α → Bool) (l : List α) (i : Nat) (a : α)
    (hi : l[i]? = some a) (hp : p a = true) :
    (l.filter p)[(l.take i).countP p]? = some a := by
  induction l generalizing i with
  | nil => simp at hi
  | cons b t ih =>
    cases i with
    | zero =>
      simp only [List.getElem?_cons_zero, Option.some.injEq] at hi
      subst hi
      simp [List.filter_cons, hp]
    | succ n =>
      simp only [List.getElem?_cons_succ] at hi
      have := ih n hi
      by_cases hb : p b = true
      · simp [List.filter_cons, hb, List.countP_cons, this]
      · simp [List.filter_cons, hb, List.countP_cons, this]

/-- The position of a passing element is strictly below that of any later one. -/
theorem countP_take_lt {α : Type} (p : α → Bool) (l : List α) (i j : Nat) (a : α)
    (hi : l[i]? = some a) (hp : p a = true) (hij : i < j) :
    (l.take i).countP p < (l.take j).countP p := by
  induction l generalizing i j with
  | nil => simp at hi
  | cons b t ih =>
    cases j with
    | zero => omega
    | succ m =>
      cases i with
      | zero =>
        simp only [List.getElem?_cons_zero, Option.some.injEq] at hi
        subst hi
        simp [List.countP_cons, hp]
      | succ n =>
        simp only [List.getElem?_cons_succ] at hi
        have := ih n m hi (by omega)
        simp only [List.take_succ_cons, List.countP_cons]
        omega

/-! ## More lemmas on `checkHCLKeys` -/

theorem offending_iff {valid : List String} {item : Option ObjectItem} :
    offending valid item = true ↔ ∃ k, keyOf item = some k ∧ k ∉ valid := by
  unfold offending
  cases keyOf item <;> simp

theorem itemViolation_of_key {item : Option ObjectItem} {k : String} (h : keyOf item = some k) :
    itemViolation item = violationText k (assignLine item) := by
  simp [itemViolation, h]

/-- A supported node whose list pointer (or own pointer) is nil panics. -/
theorem checkHCLKeys_nil_pointer {node : Node} (hs : node.isSupported = true)
    (h : itemsOf node = none) (valid : List String) :
    checkHCLKeys node valid = .error .nilDereference := by
  cases node with
  | objectList p =>
    cases p with
    | none => rfl
    | some l => simp [itemsOf] at h
  | objectType p =>
    cases p with
    | none => rfl
    | some o =>
      cases o with
      | mk lb rb list =>
        cases list with
        | none => rfl
        | some l => simp [itemsOf, ObjectType.List] at h
  | nil => simp [Node.isSupported] at hs
  | file _ => simp [Node.isSupported] at hs
  | objectKey _ => simp [Node.isSupported] at hs
  | objectItem _ => simp [Node.isSupported] at hs
  | literalType _ => simp [Node.isSupported] at hs
  | listType _ => simp [Node.isSupported] at hs
  | comment _ => simp [Node.isSupported] at hs
  | commentGroup _ => simp [Node.isSupported] at hs

/-- The loop never ends with a plain `fmt.Errorf` error unless it started with one. -/
theorem foldlM_ne_errorString (vm : List String) (items : List (Option ObjectItem))
    (acc : Option GoError) (hacc : ∀ s, acc ≠ some (.errorString s)) (s : String) :
    items.foldlM (checkItem vm) acc ≠ .ok (some (.errorString s)) := by
  induction items generalizing acc with
  | nil =>
    intro h
    simp only [List.foldlM, pure, Except.pure, Except.ok.injEq] at h
    exact hacc s h
  | cons item rest ih =>
    rw [List.foldlM_cons, checkItem_eq]
    cases h : itemKey item with
    | error p => simp [bind_error]
    | ok k =>
      cases hm : mapHas vm k
      · show (ite (mapHas vm k = true) _ _ >>= _) ≠ _
        rw [if_neg (by simp [hm]), bind_ok]
        apply ih
        intro t ht
        cases acc with
        | none => simp [multierrorAppend] at ht
        | some e => cases e <;> simp [multierrorAppend] at ht
      · show (ite (mapHas vm k = true) _ _ >>= _) ≠ _
        rw [if_pos hm, bind_ok]
        exact ih acc hacc

theorem length_filterMap_keyOf (valid : List String) (items : List (Option ObjectItem)) :
    (offendingKeys valid items).length = items.countP (offending valid) := by
  unfold offendingKeys
  induction items with
  | nil => rfl
  | cons item rest ih =>
    by_cases ho : offending valid item = true
    · obtain ⟨k, hk, _⟩ := offending_iff.mp ho
      rw [List.filter_cons_of_pos ho, List.filterMap_cons_some hk, List.length_cons, ih,
        List.countP_cons_of_pos _ _ ho]
    · rw [List.filter_cons_of_neg ho, ih, List.countP_cons_of_neg _ _ ho]

/-! ## The key the code reads is the first key of the tree -/

/-- The expression `item.Keys[0].Token.Value().(string)` yields a string exactly
when the tree has a first key holding that string. -/
theorem keyOf_eq_firstKey (item : Option ObjectItem) : keyOf item = firstKey item := by
  cases item with
  | none => rfl
  | some it =>
    cases it with
    | mk keys assign val =>
      cases keys with
      | nil => rfl
      | cons key rest =>
        cases key with
        | none => rfl
        | some k =>
          obtain ⟨⟨pos, text, json, value⟩⟩ := k
          cases value with
          | none => rfl
          | some v => cases v <;> rfl

/-! ## The claims on `checkHCLKeys` -/

/-- C1: on an ObjectList node, and on an ObjectType node wrapping a list,
`checkHCLKeys` returns nil exactly when every item of the list has a first key
in the tree and the string of that key is a member of `valid`; for an empty
item list it returns nil, whatever `valid` is. -/
theorem checkHCLKeys_nil_iff (items : List (Option ObjectItem)) (valid : List String)
    (lb rb : Pos) :
    (checkHCLKeys (.objectList (some (.mk items))) valid = .ok none ↔
        ∀ item ∈ items, ∃ K, firstKey item = some K ∧ K ∈ valid) ∧
    (checkHCLKeys (.objectType (some (.mk lb rb (some (.mk items))))) valid = .ok none ↔
        ∀ item ∈ items, ∃ K, firstKey item = some K ∧ K ∈ valid) ∧
    checkHCLKeys (.objectList (some (.mk []))) valid = .ok none ∧
    checkHCLKeys (.objectType (some (.mk lb rb (some (.mk []))))) valid = .ok none := by
  have hkey : ∀ item : Option ObjectItem, keyOf item = firstKey item := by
    intro item
    rcases item with _ | ⟨keys, assign, val⟩
    · rfl
    · rcases keys with _ | ⟨key, rest⟩
      · rfl
      · rcases key with _ | ⟨⟨pos, text, json, value⟩⟩
        · rfl
        · rcases value with _ | v
          · rfl
          · cases v <;> rfl
  have hloop := foldlM_none_iff valid items
  simp only [hkey] at hloop
  refine ⟨?_, ?_, rfl, rfl⟩
  · rw [checkHCLKeys_eq_loop (.objectList (some (.mk items))) items rfl]
    exact hloop
  · rw [checkHCLKeys_eq_loop (.objectType (some (.mk lb rb (some (.mk items))))) items rfl]
    exact hloop

/-- Witness of C1: the document whose only key is the permitted `token_helper`
is accepted, as a list and inside an object; the two-line document, whose
second key is `bogus_key`, is not; the empty document is accepted with nothing
permitted. -/
theorem checkHCLKeys_nil_iff_witness :
    firstKey helperItem = some "token_helper" ∧
    firstKey bogusItem = some "bogus_key" ∧
    checkHCLKeys (.objectList (some (.mk [helperItem]))) ["token_helper"] = .ok none ∧
    checkHCLKeys (.objectType (some (.mk noPos noPos (some (.mk [helperItem])))))
      ["token_helper"] = .ok none ∧
    checkHCLKeys (.objectList (some (.mk twoLineItems))) ["token_helper"] ≠ .ok none ∧
    checkHCLKeys (.objectList (some (.mk []))) [] = .ok none ∧
    checkHCLKeys (.objectList (some (.mk twoLineItems))) ["token_helper"]
      = .ok (some (.multierror ["invalid key 'bogus_key' on line 2"])) ∧
    checkHCLKeys (.objectList (some (.mk twoLineItems))) ["token_helper", "bogus_key"]
      = .ok none :=
  ⟨rfl, rfl,
    (checkHCLKeys_nil_iff [helperItem] ["token_helper"] noPos noPos).1.mpr
      (fun item hmem => by
        rw [List.mem_singleton.mp hmem]
        exact ⟨"token_helper", rfl, by decide⟩),
    (checkHCLKeys_nil_iff [helperItem] ["token_helper"] noPos noPos).2.1.mpr
      (fun item hmem => by
        rw [List.mem_singleton.mp hmem]
        exact ⟨"token_helper", rfl, by decide⟩),
    fun hnil => by
      obtain ⟨K, hK, hmem⟩ :=
        (checkHCLKeys_nil_iff twoLineItems ["token_helper"] noPos noPos).1.mp hnil bogusItem
          (by simp [twoLineItems])
      have hKeq : K = "bogus_key" := (Option.some.inj hK).symm
      rw [hKeq] at hmem
      exact absurd hmem (by decide),
    (checkHCLKeys_nil_iff [] [] noPos noPos).2.2.1, by decide, by decide⟩

/-- C2: on a supported node whose items all have a first key holding a string,
`checkHCLKeys` returns, and the error it returns holds exactly one violation
for each item whose first key is not permitted and none for the others: the
violations are the texts expected for the items with a first key outside
`valid`, so their number is the number of such items. -/
theorem checkHCLKeys_reports_every_offender (node : Node) (items : List (Option ObjectItem))
    (h : itemsOf node = some items) (hkeyed : keyed items) (valid : List String) :
    ∃ r, checkHCLKeys node valid = .ok r ∧
      violations r = (items.filter (notPermitted valid)).map expectedViolation ∧
      (violations r).length = items.countP (notPermitted valid) := by
  have hkey : ∀ item : Option ObjectItem, keyOf item = firstKey item := by
    intro item
    rcases item with _ | ⟨keys, assign, val⟩
    · rfl
    · rcases keys with _ | ⟨key, rest⟩
      · rfl
      · rcases key with _ | ⟨⟨pos, text, json, value⟩⟩
        · rfl
        · rcases value with _ | v
          · rfl
          · cases v <;> rfl
  have hwf : wellFormed items := by
    intro item hmem
    rw [hkey]
    exact hkeyed item hmem
  have hoff : offending valid = notPermitted valid := by
    funext item
    simp only [offending, notPermitted, hkey]
  have htext : itemViolation = expectedViolation := by
    funext item
    simp only [itemViolation, expectedViolation, hkey, violationText, formatInt]
  refine ⟨_, checkHCLKeys_wellFormed node items h hwf valid, ?_, ?_⟩
  · rw [violations_aggregate, hoff, htext]
  · rw [violations_aggregate, List.length_map, List.countP_eq_length_filter, hoff]

/-- Witness of C2: in the three-line document the permitted `token_helper` is
not reported and both unknown keys are, each once, so there are two violations
and not one. -/
theorem checkHCLKeys_reports_every_offender_witness :
    itemsOf threeLineDocument = some threeLineItems ∧ keyed threeLineItems ∧
    threeLineItems.map firstKey = [some "token_helper", some "bogus", some "extra"] ∧
    (threeLineItems.filter (notPermitted permittedKeys)).map expectedViolation
      = ["invalid key 'bogus' on line 2", "invalid key 'extra' on line 3"] ∧
    threeLineItems.countP (notPermitted permittedKeys) = 2 ∧
    checkHCLKeys threeLineDocument permittedKeys
      = .ok (some (.multierror
          ["invalid key 'bogus' on line 2", "invalid key 'extra' on line 3"])) ∧
    ∃ r, checkHCLKeys threeLineDocument permittedKeys = .ok r ∧
      violations r = (threeLineItems.filter (notPermitted permittedKeys)).map expectedViolation ∧
      (violations r).length = threeLineItems.countP (notPermitted permittedKeys) :=
  ⟨rfl, by decide, rfl, by decide, by decide, by decide,
    checkHCLKeys_reports_every_offender threeLineDocument threeLineItems rfl (by decide)
      permittedKeys⟩

/-- C3: on a supported node with well-formed items the violations stand in the
order of their items: they form a sublist of the items' texts, the violation of
an offending item stands at the position counting the offending items before
it, and that position grows strictly along the item list. -/
theorem checkHCLKeys_violation_order (node : Node) (items : List (Option ObjectItem))
    (h : itemsOf node = some items) (hwf : wellFormed items) (valid : List String) :
    ∃ r, checkHCLKeys node valid = .ok r ∧
      (violations r).Sublist (items.map itemViolation) ∧
      ∀ i j a b, i < j → items[i]? = some a → items[j]? = some b →
        offending valid a = true → offending valid b = true →
        violationIndex valid items i < violationIndex valid items j ∧
        (violations r)[violationIndex valid items i]? = some (itemViolation a) ∧
        (violations r)[violationIndex valid items j]? = some (itemViolation b) := by
  refine ⟨_, checkHCLKeys_wellFormed node items h hwf valid, ?_, ?_⟩
  · rw [violations_aggregate]
    exact (List.filter_sublist items).map itemViolation
  · intro i j a b hij hi hj ha hb
    rw [violations_aggregate]
    refine ⟨countP_take_lt _ items i j a hi ha hij, ?_, ?_⟩
    · rw [List.getElem?_map, violationIndex, filter_getElem?_countP _ items i a hi ha]
      rfl
    · rw [List.getElem?_map, violationIndex, filter_getElem?_countP _ items j b hj hb]
      rfl

/-- Witness of C3: the two items of the duplicate-key document, in order. -/
theorem checkHCLKeys_violation_order_witness :
    itemsOf duplicateDocument = some duplicateItems ∧ wellFormed duplicateItems ∧
    ∃ r, checkHCLKeys duplicateDocument permittedKeys = .ok r ∧
      (violations r).Sublist (duplicateItems.map itemViolation) ∧
      ∀ i j a b, i < j → duplicateItems[i]? = some a → duplicateItems[j]? = some b →
        offending permittedKeys a = true → offending permittedKeys b = true →
        violationIndex permittedKeys duplicateItems i
          < violationIndex permittedKeys duplicateItems j ∧
        (violations r)[violationIndex permittedKeys duplicateItems i]?
          = some (itemViolation a) ∧
        (violations r)[violationIndex permittedKeys duplicateItems j]?
          = some (itemViolation b) :=
  ⟨rfl, by decide, checkHCLKeys_violation_order duplicateDocument duplicateItems rfl (by decide) permittedKeys⟩

/-- C4: for an offending item (first key `K` not permitted, assignment operator
on line `N`) of a supported node with well-formed items, the aggregate error
holds the violation whose text is exactly `invalid key 'K' on line N`. -/
theorem checkHCLKeys_violation_text (node : Node) (items : List (Option ObjectItem))
    (h : itemsOf node = some items) (hwf : wellFormed items) (valid : List String)
    (item : Option ObjectItem) (K : String) (N : Int)
    (hmem : item ∈ items) (hK : keyOf item = some K) (hbad : K ∉ valid)
    (hN : assignLine item = N) :
    ∃ es, checkHCLKeys node valid = .ok (some (.multierror es)) ∧
      ("invalid key '" ++ K ++ "' on line " ++ formatInt N) ∈ es := by
  have hoff : offending valid item = true := offending_iff.mpr ⟨K, hK, hbad⟩
  have hin : itemViolation item ∈ (items.filter (offending valid)).map itemViolation :=
    List.mem_map_of_mem _ (List.mem_filter.mpr ⟨hmem, hoff⟩)
  rw [itemViolation_of_key hK, hN] at hin
  rw [checkHCLKeys_wellFormed node items h hwf valid]
  cases hl : (items.filter (offending valid)).map itemViolation with
  | nil => rw [hl] at hin; simp at hin
  | cons v vs =>
    rw [hl] at hin
    exact ⟨v :: vs, rfl, hin⟩

/-- Witness of C4: in the two-line document with `token_helper` on line 1 and
`bogus_key` on line 2, the error names `bogus_key` and line 2. -/
theorem checkHCLKeys_violation_text_witness :
    itemsOf twoLineDocument = some twoLineItems ∧ wellFormed twoLineItems ∧
    bogusItem ∈ twoLineItems ∧ keyOf bogusItem = some "bogus_key" ∧
    "bogus_key" ∉ permittedKeys ∧ assignLine bogusItem = 2 ∧
    ∃ es, checkHCLKeys twoLineDocument permittedKeys = .ok (some (.multierror es)) ∧
      "invalid key 'bogus_key' on line 2" ∈ es :=
  ⟨rfl, by decide, by simp [twoLineItems], rfl, by decide, rfl,
    checkHCLKeys_violation_text twoLineDocument twoLineItems rfl (by decide) permittedKeys
      bogusItem "bogus_key" 2 (by simp [twoLineItems]) rfl (by decide) rfl⟩

/-- C5, as stated, fails: the document `bogus = 1`, `bogus = 2` has an
unknown key, its validation yields two violations, and it has one distinct
offending key. -/
theorem checkHCLKeys_distinct_keys_counterexample :
    offending permittedKeys (duplicateItems.headD none) = true ∧
    checkHCLKeys duplicateDocument permittedKeys =
      .ok (some (.multierror ["invalid key 'bogus' on line 1", "invalid key 'bogus' on line 2"])) ∧
    (offendingKeys permittedKeys duplicateItems).dedup.length = 1 := by
  decide

/-- C5, amended: for a supported node with well-formed items of which at least
one has a key outside the permitted set, validation against the permitted set
fails with an aggregate error whose violation count is the number of offending
items; it is the number of distinct offending keys when no offending key
occurs twice. -/
theorem checkHCLKeys_count_offending_items (node : Node) (items : List (Option ObjectItem))
    (h : itemsOf node = some items) (hwf : wellFormed items)
    (hbad : ∃ item ∈ items, offending permittedKeys item = true) :
    ∃ es, checkHCLKeys node permittedKeys = .ok (some (.multierror es)) ∧
      0 < es.length ∧
      es.length = items.countP (offending permittedKeys) ∧
      ((offendingKeys permittedKeys items).Nodup →
        es.length = (offendingKeys permittedKeys items).dedup.length) := by
  obtain ⟨item, hmem, hoff⟩ := hbad
  have hin : itemViolation item ∈ (items.filter (offending permittedKeys)).map itemViolation :=
    List.mem_map_of_mem _ (List.mem_filter.mpr ⟨hmem, hoff⟩)
  have hlen : ((items.filter (offending permittedKeys)).map itemViolation).length
      = items.countP (offending permittedKeys) := by
    rw [List.length_map, List.countP_eq_length_filter]
  rw [checkHCLKeys_wellFormed node items h hwf permittedKeys]
  cases hl : (items.filter (offending permittedKeys)).map itemViolation with
  | nil => rw [hl] at hin; simp at hin
  | cons v vs =>
    rw [hl] at hlen
    refine ⟨v :: vs, rfl, by simp, hlen, ?_⟩
    intro hnd
    rw [hnd.dedup, length_filterMap_keyOf, hlen]

/-- Witness of C5, amended: the document with the same unknown key twice. -/
theorem checkHCLKeys_count_offending_items_witness :
    itemsOf duplicateDocument = some duplicateItems ∧ wellFormed duplicateItems ∧
    (∃ item ∈ duplicateItems, offending permittedKeys item = true) ∧
    ∃ es, checkHCLKeys duplicateDocument permittedKeys = .ok (some (.multierror es)) ∧
      0 < es.length ∧
      es.length = duplicateItems.countP (offending permittedKeys) ∧
      ((offendingKeys permittedKeys duplicateItems).Nodup →
        es.length = (offendingKeys permittedKeys duplicateItems).dedup.length) :=
  ⟨rfl, by decide, ⟨duplicateItems.headD none, by simp [duplicateItems], by decide⟩,
    checkHCLKeys_count_offending_items duplicateDocument duplicateItems rfl (by decide)
      ⟨duplicateItems.headD none, by simp [duplicateItems], by decide⟩⟩

/-- C6, as stated, fails: in the document with `bogus` on line 1 and `= 1` on
line 2 the violation names line 2 while the key stands on line 1; and for the
block item `bogus` without assignment operator the violation names line 0
while the key stands on line 1. -/
theorem checkHCLKeys_key_line_counterexample :
    (checkHCLKeys splitLineDocument permittedKeys =
        .ok (some (.multierror ["invalid key 'bogus' on line 2"])) ∧
      keyLine splitLineItem = some 1) ∧
    (checkHCLKeys blockDocument permittedKeys =
        .ok (some (.multierror ["invalid key 'bogus' on line 0"])) ∧
      keyLine blockItem = some 1) := by
  decide

/-- C6, amended: for an offending item that has an assignment operator (its
`Assign` position has a line above 0), the line `N` in its violation is the
line of that operator, a line of the source; so it is the line of the item's
key whenever the operator stands on the key's line. -/
theorem checkHCLKeys_reports_assign_line (node : Node) (items : List (Option ObjectItem))
    (h : itemsOf node = some items) (hwf : wellFormed items) (valid : List String)
    (i : Nat) (item : Option ObjectItem) (K : String)
    (hi : items[i]? = some item) (hK : keyOf item = some K) (hbad : K ∉ valid)
    (hop : 0 < assignLine item) :
    ∃ r N, checkHCLKeys node valid = .ok r ∧ 1 ≤ N ∧ N = assignLine item ∧
      (violations r)[violationIndex valid items i]? = some (violationText K N) ∧
      ∀ L, keyLine item = some L → assignLine item = L →
        (violations r)[violationIndex valid items i]? = some (violationText K L) := by
  have hoff : offending valid item = true := offending_iff.mpr ⟨K, hK, hbad⟩
  have hpos : (violations (aggregate ((items.filter (offending valid)).map itemViolation)))[
      violationIndex valid items i]? = some (violationText K (assignLine item)) := by
    rw [violations_aggregate, List.getElem?_map, violationIndex,
      filter_getElem?_countP _ items i item hi hoff, Option.map_some', itemViolation_of_key hK]
  refine ⟨_, assignLine item, checkHCLKeys_wellFormed node items h hwf valid, hop, rfl, hpos, ?_⟩
  intro L _ hsame
  rw [← hsame]
  exact hpos

/-- Witness of C6, amended: the second item of the two-line document. -/
theorem checkHCLKeys_reports_assign_line_witness :
    itemsOf twoLineDocument = some twoLineItems ∧ wellFormed twoLineItems ∧
    twoLineItems[1]? = some bogusItem ∧ keyOf bogusItem = some "bogus_key" ∧
    "bogus_key" ∉ permittedKeys ∧ 0 < assignLine bogusItem ∧
    ∃ r N, checkHCLKeys twoLineDocument permittedKeys = .ok r ∧ 1 ≤ N ∧
      N = assignLine bogusItem ∧
      (violations r)[violationIndex permittedKeys twoLineItems 1]?
        = some (violationText "bogus_key" N) ∧
      ∀ L, keyLine bogusItem = some L → assignLine bogusItem = L →
        (violations r)[violationIndex permittedKeys twoLineItems 1]?
          = some (violationText "bogus_key" L) :=
  ⟨rfl, by decide, rfl, rfl, by decide, by decide,
    checkHCLKeys_reports_assign_line twoLineDocument twoLineItems rfl (by decide) permittedKeys
      1 bogusItem "bogus_key" rfl rfl (by decide) (by decide)⟩

/-- C7: for a node that is neither an ObjectList nor an ObjectType,
`checkHCLKeys` returns the error `cannot check HCL keys of type T`, with `T` the
dynamic type of the node, whatever the permitted list and whatever the node
holds; for an ObjectList or ObjectType node it never returns an error of that
kind. -/
theorem checkHCLKeys_unsupported (node : Node) (valid : List String) :
    (node.isSupported = false →
      checkHCLKeys node valid =
        .ok (some (.errorString ("cannot check HCL keys of type " ++ node.typeName)))) ∧
    (node.isSupported = true →
      ∀ s, checkHCLKeys node valid ≠ .ok (some (.errorString s))) := by
  constructor
  · intro hs
    cases node <;> first | rfl | simp [Node.isSupported] at hs
  · intro hs s
    cases hitems : itemsOf node with
    | none =>
      rw [checkHCLKeys_nil_pointer hs hitems]
      simp
    | some items =>
      rw [checkHCLKeys_eq_loop node items hitems]
      exact foldlM_ne_errorString _ items none (by simp) s

/-- Witness of C7: a literal node is refused even when its own key would be
permitted; an object list is never answered with that error. -/
theorem checkHCLKeys_unsupported_witness :
    (numberLit "1" 1 noPos).isSupported = false ∧
    checkHCLKeys (numberLit "1" 1 noPos) ["1"] =
      .ok (some (.errorString "cannot check HCL keys of type *ast.LiteralType")) ∧
    blockDocument.isSupported = true ∧
    checkHCLKeys blockDocument permittedKeys ≠
      .ok (some (.errorString "cannot check HCL keys of type *ast.ObjectList")) :=
  ⟨rfl, (checkHCLKeys_unsupported (numberLit "1" 1 noPos) ["1"]).1 rfl, rfl,
    (checkHCLKeys_unsupported blockDocument permittedKeys).2 rfl _⟩

/-! ## The claims on the forwarding loaders -/

/-- C8: for every string `contents`, `ParseClientConfig(contents)` returns the
very error of `config.ParseClientConfig(contents)` (nil exactly when that one is
nil) and a configuration that is nil exactly when the parser's is nil and has
the same `TokenHelper` otherwise. -/
theorem ParseClientConfig_forwards {ε : Type}
    (configParseClientConfig : String → Option config.DefaultClientConfig × Option ε)
    (contents : String) :
    (ParseClientConfig configParseClientConfig contents).2
        = (configParseClientConfig contents).2 ∧
    ((ParseClientConfig configParseClientConfig contents).2 = none
        ↔ (configParseClientConfig contents).2 = none) ∧
    ((ParseClientConfig configParseClientConfig contents).1 = none
        ↔ (configParseClientConfig contents).1 = none) ∧
    (ParseClientConfig configParseClientConfig contents).1.map DefaultClientConfig.TokenHelper
        = (configParseClientConfig contents).1.map config.DefaultClientConfig.TokenHelper := by
  unfold ParseClientConfig convertPointer
  cases h : (configParseClientConfig contents).1 <;> simp [h, Function.comp_def]

/-- With the result type of the value it returns (see `LoadClientConfig`) and
against the resolver modelled from the spec, `LoadClientConfig(path)` reads the
file found by first match: a non-empty `path` verbatim, else the value of
`VAULT_CLIENT_CONFIG_PATH` if set and non-empty, else `~/.vaultrc` (the latter
two after tilde expansion), and returns what loading that file gives; with an
empty path and the variable naming an absent file, it returns the zero-value
configuration and no error. -/
theorem LoadClientConfig_resolution (parse : String → config.Result) (w : config.World)
    (path : String) :
    (path ≠ "" → config.resolvePath w path = path ∧ config.fileToRead w path = .ok path) ∧
    (∀ v, path = "" → w.getenv ClientConfigPathEnv = some v → v ≠ "" →
      config.resolvePath w path = v ∧ config.fileToRead w path = config.expandTilde w v) ∧
    (path = "" →
      (w.getenv ClientConfigPathEnv = none ∨ w.getenv ClientConfigPathEnv = some "") →
      config.resolvePath w path = DefaultClientConfigPath ∧
      config.fileToRead w path = config.expandTilde w DefaultClientConfigPath) ∧
    (∀ file, config.fileToRead w path = .ok file →
      LoadClientConfig (config.LoadClientConfig parse w) path
        = (convertPointer (config.loadFrom parse w file).1, (config.loadFrom parse w file).2)) ∧
    (∀ v file, path = "" → w.getenv ClientConfigPathEnv = some v → v ≠ "" →
      config.expandTilde w v = .ok file → w.readFile file = .notFound →
      LoadClientConfig (config.LoadClientConfig parse w) path = (some ⟨""⟩, none)) := by
  have hread : ∀ file, config.fileToRead w path = .ok file →
      LoadClientConfig (config.LoadClientConfig parse w) path
        = (convertPointer (config.loadFrom parse w file).1,
            (config.loadFrom parse w file).2) := by
    intro file hfile
    simp only [LoadClientConfig, config.LoadClientConfig, hfile]
  have henv : ∀ v, path = "" → w.getenv ClientConfigPathEnv = some v → v ≠ "" →
      config.resolvePath w path = v ∧
        config.fileToRead w path = config.expandTilde w v := by
    intro v hp hv hne
    subst hp
    have hr : config.resolvePath w "" = v := by simp [config.resolvePath, hv, hne]
    exact ⟨hr, by simp [config.fileToRead, hr]⟩
  refine ⟨?_, henv, ?_, hread, ?_⟩
  · intro hp
    simp [config.resolvePath, config.fileToRead, hp]
  · intro hp hv
    subst hp
    have hr : config.resolvePath w "" = DefaultClientConfigPath := by
      rcases hv with hv | hv <;> simp [config.resolvePath, hv]
    exact ⟨hr, by simp [config.fileToRead, hr]⟩
  · intro v file hp hv hne hexp hnot
    have hfile : config.fileToRead w path = .ok file := by
      rw [(henv v hp hv hne).2, hexp]
    rw [hread file hfile]
    simp [config.loadFrom, hnot, convertPointer]

/-- An instance of `LoadClientConfig_resolution`: with an empty path and the
variable naming an absent file, that file is the one read, although the default
file exists and sets a token helper; an explicit path is read verbatim. -/
theorem LoadClientConfig_resolution_witness :
    config.fileToRead overrideWorld "" = .ok "/etc/vault/absent.hcl" ∧
    LoadClientConfig (config.LoadClientConfig sampleParse overrideWorld) "" = (some ⟨""⟩, none) ∧
    config.fileToRead overrideWorld "/home/user/.vaultrc" = .ok "/home/user/.vaultrc" ∧
    config.fileToRead helperWorld "" = .ok "/home/user/.vaultrc" :=
  ⟨((LoadClientConfig_resolution sampleParse overrideWorld "").2.1 "/etc/vault/absent.hcl"
      rfl rfl (by decide)).2,
    (LoadClientConfig_resolution sampleParse overrideWorld "").2.2.2.2 "/etc/vault/absent.hcl"
      "/etc/vault/absent.hcl" rfl rfl (by decide) rfl rfl,
    ((LoadClientConfig_resolution sampleParse overrideWorld "/home/user/.vaultrc").1
      (by decide)).2,
    ((LoadClientConfig_resolution sampleParse helperWorld "").2.2.1 rfl (Or.inl rfl)).2⟩

/-- C9: the code does not do what the claim says of `LoadClientConfig`. Its
declaration names the result type `*DefaultConfig`, which the file declares
nowhere, while its body returns a `*DefaultClientConfig`, so it does not
type-check, unlike its two siblings, and no call of it returns, for any
resolver behind it and any path. With an empty path and the variable naming an
absent file, the function with the siblings' result type returns the zero-value
configuration and no error, as the claim says. -/
theorem LoadClientConfig_result_type_undeclared :
    loadClientConfigSignature.declaredResult = "DefaultConfig" ∧
    "DefaultConfig" ∉ declaredTypes ∧
    loadClientConfigSignature.returnedResult ≠ loadClientConfigSignature.declaredResult ∧
    loadClientConfigSignature.typeChecks = false ∧
    clientConfigSignature.typeChecks = true ∧
    parseClientConfigSignature.typeChecks = true ∧
    (∀ (parse : String → config.Result) (w : config.World) (path : String),
      LoadClientConfigAsDeclared (config.LoadClientConfig parse w) path = none) ∧
    LoadClientConfigAsDeclared (config.LoadClientConfig sampleParse overrideWorld) "" = none ∧
    config.fileToRead overrideWorld "" = .ok "/etc/vault/absent.hcl" ∧
    LoadClientConfig (config.LoadClientConfig sampleParse overrideWorld) ""
      = (some ⟨""⟩, none) := by
  refine ⟨rfl, by decide, by decide, rfl, rfl, rfl, ?_, rfl, rfl, rfl⟩
  intro parse w path
  rfl

/-- C10 (against the accessor modelled from the spec): once a call of
`ClientConfig()` has returned a configuration without error, every later call
returns that configuration without error, whatever the environment and the
files have become; a call that returned an error leaves the cache empty, and
the next call returns what resolution with an empty path returns then. -/
theorem ClientConfig_memoized (parse : String → config.Result) (w : config.World)
    (cache : Option config.DefaultClientConfig) :
    (∀ c cache', ClientConfig (config.ClientConfig parse w) cache = ((some c, none), cache') →
      ∀ later : List config.World, ∀ r ∈ callsOf parse later cache', r = (some c, none)) ∧
    (∀ conf e cache', ClientConfig (config.ClientConfig parse w) cache = ((conf, some e), cache') →
      cache' = none ∧
      ∀ next : config.World,
        (ClientConfig (config.ClientConfig parse next) cache').1
          = LoadClientConfig (config.LoadClientConfig parse next) "") := by
  have hcached : ∀ (c : config.DefaultClientConfig) (later : List config.World),
      ∀ r ∈ callsOf parse later (some c), r = (convertPointer (some c), none) := by
    intro c later
    induction later with
    | nil => simp [callsOf]
    | cons w' ws ih =>
      intro r hr
      simp only [callsOf, ClientConfig, config.ClientConfig, List.mem_cons] at hr
      rcases hr with hr | hr
      · exact hr
      · exact ih r hr
  constructor
  · intro c cache' hcall later r hr
    cases cache with
    | some c0 =>
      simp only [ClientConfig, config.ClientConfig, Prod.mk.injEq] at hcall
      obtain ⟨⟨hc, _⟩, hc'⟩ := hcall
      subst hc'
      rw [hcached c0 later r hr, hc]
    | none =>
      rcases hload : config.LoadClientConfig parse w "" with ⟨conf, err⟩
      cases err with
      | some e => simp [ClientConfig, config.ClientConfig, hload] at hcall
      | none =>
        simp only [ClientConfig, config.ClientConfig, hload, Prod.mk.injEq] at hcall
        obtain ⟨⟨hc, _⟩, hc'⟩ := hcall
        cases conf with
        | none => simp [convertPointer] at hc
        | some c0 =>
          subst hc'
          rw [hcached c0 later r hr, hc]
  · intro conf e cache' hcall
    have hnone : cache' = none := by
      cases cache with
      | some c0 => simp [ClientConfig, config.ClientConfig] at hcall
      | none =>
        rcases hload : config.LoadClientConfig parse w "" with ⟨conf0, err⟩
        cases err with
        | none => simp [ClientConfig, config.ClientConfig, hload] at hcall
        | some e0 =>
          simp only [ClientConfig, config.ClientConfig, hload, Prod.mk.injEq] at hcall
          exact hcall.2.symm
    refine ⟨hnone, ?_⟩
    intro next
    subst hnone
    rcases hload : config.LoadClientConfig parse next "" with ⟨conf0, err⟩
    cases err <;> simp [ClientConfig, config.ClientConfig, LoadClientConfig, hload]

/-- Witness of C10: a first call on a broken file fails and caches nothing,
the next call on a repaired file succeeds, and the calls after it return the
same configuration although the file is broken again or overridden. -/
theorem ClientConfig_memoized_witness :
    callsOf sampleParse [brokenWorld, helperWorld, brokenWorld, overrideWorld] none =
      [(none, some (.ParseError "token_helper =")), (some ⟨"helper"⟩, none),
        (some ⟨"helper"⟩, none), (some ⟨"helper"⟩, none)] ∧
    (∀ r ∈ callsOf sampleParse [brokenWorld, overrideWorld] (some ⟨"helper"⟩),
      r = (some ⟨"helper"⟩, none)) ∧
    (ClientConfig (config.ClientConfig sampleParse helperWorld) none).1
      = LoadClientConfig (config.LoadClientConfig sampleParse helperWorld) "" :=
  ⟨by decide,
    (ClientConfig_memoized sampleParse helperWorld none).1 ⟨"helper"⟩ (some ⟨"helper"⟩) rfl
      [brokenWorld, overrideWorld],
    ((ClientConfig_memoized sampleParse brokenWorld none).2 none (.ParseError "token_helper =")
      none rfl).2 helperWorld⟩

/-! ## Lemmas for the relational claims -/

theorem itemKey_congr {a b : Option ObjectItem} (h : sameHead a b) : itemKey a = itemKey b := by
  cases a with
  | none =>
    cases b with
    | none => rfl
    | some y => simp [sameHead] at h
  | some x =>
    cases b with
    | none => simp [sameHead] at h
    | some y =>
      cases x with
      | mk keys assign val =>
        cases y with
        | mk keys' assign' val' =>
          simp only [sameHead, ObjectItem.Keys, ObjectItem.Assign] at h
          cases keys with
          | nil =>
            cases keys' with
            | nil => rfl
            | cons k' t' => simp at h
          | cons k t =>
            cases keys' with
            | nil => simp at h
            | cons k' t' =>
              simp only [List.head?_cons, Option.some.injEq] at h
              obtain ⟨hk, _⟩ := h
              subst hk
              rfl

theorem assignLine_congr {a b : Option ObjectItem} (h : sameHead a b) :
    assignLine a = assignLine b := by
  cases a with
  | none =>
    cases b with
    | none => rfl
    | some y => simp [sameHead] at h
  | some x =>
    cases b with
    | none => simp [sameHead] at h
    | some y =>
      simp only [sameHead] at h
      simp [assignLine, h.2]

theorem checkItem_congr (vm : List String) (acc : Option GoError) {a b : Option ObjectItem}
    (h : sameHead a b) : checkItem vm acc a = checkItem vm acc b := by
  rw [checkItem_eq, checkItem_eq, itemKey_congr h, assignLine_congr h]

theorem foldlM_congr (vm : List String) {items items' : List (Option ObjectItem)}
    (h : List.Forall₂ sameHead items items') (acc : Option GoError) :
    items.foldlM (checkItem vm) acc = items'.foldlM (checkItem vm) acc := by
  induction h generalizing acc with
  | nil => rfl
  | cons hab _ ih =>
    rw [List.foldlM_cons, List.foldlM_cons, checkItem_congr vm acc hab]
    cases checkItem vm acc _ with
    | error p => rfl
    | ok acc' => exact ih acc'

/-- The round of the loop depends on the permitted list through its elements. -/
theorem checkItem_valid_congr {valid1 valid2 : List String}
    (hset : ∀ k, k ∈ valid1 ↔ k ∈ valid2) :
    checkItem (buildValidMap valid1) = checkItem (buildValidMap valid2) := by
  funext acc item
  rw [checkItem_eq, checkItem_eq]
  cases itemKey item with
  | error p => rfl
  | ok k =>
    have : decide (k ∈ valid1) = decide (k ∈ valid2) := by simp [hset k]
    simp only [mapHas_buildValidMap, this]

/-- The loop panics as soon as one item has no string first key. -/
theorem foldlM_not_wellFormed (vm : List String) (items : List (Option ObjectItem))
    (h : ¬ wellFormed items) (acc : Option GoError) :
    ∃ p, items.foldlM (checkItem vm) acc = .error p := by
  induction items generalizing acc with
  | nil => exact absurd (fun _ hm => by simp at hm) h
  | cons item rest ih =>
    rw [List.foldlM_cons]
    cases hik : itemKey item with
    | error p => exact ⟨p, by rw [checkItem_error vm acc hik, bind_error]⟩
    | ok k =>
      have hrest : ¬ wellFormed rest := by
        intro hr
        apply h
        intro it hit
        rcases List.mem_cons.mp hit with hit | hit
        · rw [hit, keyOf_eq_some.mpr hik]; rfl
        · exact hr it hit
      cases checkItem vm acc item with
      | error q => exact ⟨q, by rw [bind_error]⟩
      | ok acc' =>
        rw [bind_ok]
        exact ih hrest acc'

theorem filter_sublist_of_imp {α : Type} (p q : α → Bool) (l : List α)
    (h : ∀ a, p a = true → q a = true) : (l.filter p).Sublist (l.filter q) := by
  induction l with
  | nil => simp
  | cons a t ih =>
    by_cases hp : p a = true
    · rw [List.filter_cons_of_pos hp, List.filter_cons_of_pos (h a hp)]
      exact ih.cons₂ a
    · rw [List.filter_cons_of_neg hp]
      by_cases hq : q a = true
      · rw [List.filter_cons_of_pos hq]
        exact ih.cons a
      · rw [List.filter_cons_of_neg hq]
        exact ih

/-! ## The relational claims on `checkHCLKeys` -/

/-- C11: `checkHCLKeys` decides an item by its first key only. An item whose
first key holds the string `K` is a violation exactly when `K` is not permitted,
whatever keys follow and whatever its value; and the result for a node is
unchanged when, item by item, the keys after the first or the value are
replaced, added or removed. -/
theorem checkHCLKeys_first_key_only (valid : List String) :
    (∀ (k0 : ObjectKey) (rest : List (Option ObjectKey)) (assign : Pos) (val : Node)
        (K : String), k0.Token.Value = some (.string K) →
      offending valid (some (.mk (some k0 :: rest) assign val)) = decide (K ∉ valid) ∧
      checkHCLKeys (.objectList (some (.mk [some (.mk (some k0 :: rest) assign val)]))) valid
        = if K ∈ valid then .ok none
          else .ok (some (.multierror [violationText K assign.Line]))) ∧
    (∀ (node node' : Node) (items items' : List (Option ObjectItem)),
      itemsOf node = some items → itemsOf node' = some items' →
      List.Forall₂ sameHead items items' →
      checkHCLKeys node valid = checkHCLKeys node' valid) := by
  constructor
  · intro k0 rest assign val K hK
    have hik : itemKey (some (.mk (some k0 :: rest) assign val)) = .ok K := by
      simp [itemKey, deref, index, ObjectItem.Keys, Token.callValue, hK, assertString,
        bind, Except.bind]
    have hk : keyOf (some (.mk (some k0 :: rest) assign val)) = some K := keyOf_eq_some.mpr hik
    refine ⟨by simp [offending, hk], ?_⟩
    rw [checkHCLKeys_eq_loop (.objectList (some (.mk [some (.mk (some k0 :: rest) assign val)])))
        [some (.mk (some k0 :: rest) assign val)] rfl,
      List.foldlM_cons, checkItem_ok valid none hik]
    by_cases hv : K ∈ valid
    · rw [if_pos hv, if_pos hv]
      rfl
    · rw [if_neg hv, if_neg hv]
      rfl
  · intro node node' items items' h h' hsame
    rw [checkHCLKeys_eq_loop node items h, checkHCLKeys_eq_loop node' items' h']
    exact foldlM_congr _ hsame none

/-- Witness of C11: a labelled block whose first key is permitted and whose
label is not passes, and gives the same result as the item without label and
with another value. -/
theorem checkHCLKeys_first_key_only_witness :
    itemsOf (.objectList (some (.mk [labelledItem, bogusItem]))) = some [labelledItem, bogusItem] ∧
    itemsOf (.objectList (some (.mk [unlabelledItem, bogusItem])))
      = some [unlabelledItem, bogusItem] ∧
    List.Forall₂ sameHead [labelledItem, bogusItem] [unlabelledItem, bogusItem] ∧
    checkHCLKeys (.objectList (some (.mk [labelledItem, bogusItem]))) permittedKeys
      = checkHCLKeys (.objectList (some (.mk [unlabelledItem, bogusItem]))) permittedKeys ∧
    checkHCLKeys (.objectList (some (.mk [labelledItem]))) permittedKeys = .ok none :=
  ⟨rfl, rfl,
    .cons ⟨rfl, rfl⟩ (.cons ⟨rfl, rfl⟩ .nil),
    (checkHCLKeys_first_key_only permittedKeys).2 _ _ [labelledItem, bogusItem]
      [unlabelledItem, bogusItem] rfl rfl (.cons ⟨rfl, rfl⟩ (.cons ⟨rfl, rfl⟩ .nil)),
    ((checkHCLKeys_first_key_only permittedKeys).1
      ⟨⟨at_ 0 1 1, "token_helper", false, some (.string "token_helper")⟩⟩
      [some ⟨⟨at_ 13 1 14, "\"bogus\"", false, some (.string "bogus")⟩⟩] noPos
      (.objectType (some (.mk (at_ 21 1 22) (at_ 22 1 23) (some (.mk [])))))
      "token_helper" rfl).2⟩

/-- C12: for every list pointer `L` and permitted list, `checkHCLKeys` on the
ObjectType node wrapping `L` returns what `checkHCLKeys` returns on the
ObjectList node `L`: the same nil-ness and the same violations in the same
order. -/
theorem checkHCLKeys_objectType_eq_objectList (L : Option ObjectList) (lb rb : Pos)
    (valid : List String) :
    checkHCLKeys (.objectType (some (.mk lb rb L))) valid = checkHCLKeys (.objectList L) valid ∧
    (checkHCLKeys (.objectType (some (.mk lb rb L))) valid = .ok none
      ↔ checkHCLKeys (.objectList L) valid = .ok none) ∧
    (checkHCLKeys (.objectType (some (.mk lb rb L))) valid).map violations
      = (checkHCLKeys (.objectList L) valid).map violations := by
  have h : checkHCLKeys (.objectType (some (.mk lb rb L))) valid
      = checkHCLKeys (.objectList L) valid := by
    cases L <;> rfl
  exact ⟨h, by rw [h], by rw [h]⟩

/-- C13, as stated, fails: an item whose first key holds a number and whose
second key holds a string has a key with a string token value, yet the call
panics at the type assertion; with a nil first key it panics at the
dereference. -/
theorem checkHCLKeys_some_string_key_counterexample :
    (hasStringKey numberFirstItem = true ∧
      checkHCLKeys (.objectList (some (.mk [numberFirstItem]))) permittedKeys
        = .error .typeAssertion) ∧
    (hasStringKey nilFirstItem = true ∧
      checkHCLKeys (.objectList (some (.mk [nilFirstItem]))) permittedKeys
        = .error .nilDereference) := by
  decide

/-- C13, amended: on an ObjectList or ObjectType node with a list,
`checkHCLKeys` returns without panic whenever every item is a non-nil pointer
whose first key, `Keys[0]`, exists, is not nil and has a string token value; it
panics whenever some item is not so; and for the node whose only item has an
empty key list the indexing `Keys[0]` is out of range. -/
theorem checkHCLKeys_total (node : Node) (items : List (Option ObjectItem))
    (h : itemsOf node = some items) (valid : List String) :
    (keyed items → ∃ r, checkHCLKeys node valid = .ok r) ∧
    (¬ keyed items → ∃ p, checkHCLKeys node valid = .error p) ∧
    checkHCLKeys (.objectList (some (.mk [keylessItem]))) valid
      = .error (.indexOutOfRange 0 0) := by
  have hkey : ∀ item : Option ObjectItem, keyOf item = firstKey item := by
    intro item
    rcases item with _ | ⟨keys, assign, val⟩
    · rfl
    · rcases keys with _ | ⟨key, rest⟩
      · rfl
      · rcases key with _ | ⟨⟨pos, text, json, value⟩⟩
        · rfl
        · rcases value with _ | v
          · rfl
          · cases v <;> rfl
  have hiff : wellFormed items ↔ keyed items := by
    simp only [wellFormed, keyed, hkey]
  refine ⟨?_, ?_, rfl⟩
  · intro hkeyed
    exact ⟨_, checkHCLKeys_wellFormed node items h (hiff.mpr hkeyed) valid⟩
  · intro hnot
    rw [checkHCLKeys_eq_loop node items h]
    exact foldlM_not_wellFormed _ items (fun hwf => hnot (hiff.mp hwf)) none

/-- Witness of C13, amended: the ObjectType node around the two-line document
returns; a list that also holds an item without keys panics. -/
theorem checkHCLKeys_total_witness :
    itemsOf twoLineObject = some twoLineItems ∧ keyed twoLineItems ∧
    twoLineItems.map firstKey = [some "token_helper", some "bogus_key"] ∧
    (∃ r, checkHCLKeys twoLineObject permittedKeys = .ok r) ∧
    firstKey keylessItem = none ∧ ¬ keyed [bogusItem, keylessItem] ∧
    (∃ p, checkHCLKeys (.objectList (some (.mk [bogusItem, keylessItem]))) permittedKeys
      = .error p) ∧
    checkHCLKeys twoLineObject permittedKeys
      = .ok (some (.multierror ["invalid key 'bogus_key' on line 2"])) ∧
    checkHCLKeys (.objectList (some (.mk [bogusItem, keylessItem]))) permittedKeys
      = .error (.indexOutOfRange 0 0) :=
  ⟨rfl, by decide, rfl,
    (checkHCLKeys_total twoLineObject twoLineItems rfl permittedKeys).1 (by decide),
    rfl, by decide,
    (checkHCLKeys_total (.objectList (some (.mk [bogusItem, keylessItem])))
      [bogusItem, keylessItem] rfl permittedKeys).2.1 (by decide),
    by decide, by decide⟩

/-- C14: for every node and every two permitted lists with the same elements,
in any order and with any repetitions, `checkHCLKeys` returns the same
result. -/
theorem checkHCLKeys_valid_as_set (node : Node) (valid1 valid2 : List String)
    (hset : ∀ k, k ∈ valid1 ↔ k ∈ valid2) :
    checkHCLKeys node valid1 = checkHCLKeys node valid2 := by
  cases hitems : itemsOf node with
  | some items =>
    rw [checkHCLKeys_eq_loop node items hitems, checkHCLKeys_eq_loop node items hitems,
      checkItem_valid_congr hset]
  | none =>
    cases hs : node.isSupported with
    | true => rw [checkHCLKeys_nil_pointer hs hitems, checkHCLKeys_nil_pointer hs hitems]
    | false => cases node <;> first | rfl | simp [Node.isSupported] at hs

/-- Witness of C14: a permitted list against the same keys reordered and
repeated. -/
theorem checkHCLKeys_valid_as_set_witness :
    (∀ k, k ∈ ["token_helper", "bogus_key"] ↔ k ∈ ["bogus_key", "token_helper", "bogus_key"]) ∧
    checkHCLKeys twoLineDocument ["token_helper", "bogus_key"]
      = checkHCLKeys twoLineDocument ["bogus_key", "token_helper", "bogus_key"] :=
  ⟨by intro k; simp only [List.mem_cons, List.mem_singleton, List.not_mem_nil]; tauto,
    checkHCLKeys_valid_as_set twoLineDocument ["token_helper", "bogus_key"]
      ["bogus_key", "token_helper", "bogus_key"]
      (by intro k; simp only [List.mem_cons, List.mem_singleton, List.not_mem_nil]; tauto)⟩

/-- C15: for a supported node with well-formed items and permitted lists
`valid` ⊆ `valid'`, the violations under `valid'` are a sublist of those under
`valid`; so a nil result under `valid` stays nil under `valid'`; and under the
empty permitted list every item is reported. -/
theorem checkHCLKeys_monotone (node : Node) (items : List (Option ObjectItem))
    (h : itemsOf node = some items) (hwf : wellFormed items) (valid valid' : List String)
    (hsub : ∀ k ∈ valid, k ∈ valid') :
    ∃ r r' e, checkHCLKeys node valid = .ok r ∧ checkHCLKeys node valid' = .ok r' ∧
      checkHCLKeys node [] = .ok e ∧
      (violations r').Sublist (violations r) ∧
      (r = none → r' = none) ∧
      violations e = items.map itemViolation ∧ (violations e).length = items.length := by
  have hoff : ∀ item, offending valid' item = true → offending valid item = true := by
    intro item hi
    obtain ⟨k, hk, hv⟩ := offending_iff.mp hi
    exact offending_iff.mpr ⟨k, hk, fun hin => hv (hsub k hin)⟩
  have hsl : ((items.filter (offending valid')).map itemViolation).Sublist
      ((items.filter (offending valid)).map itemViolation) :=
    (filter_sublist_of_imp _ _ items hoff).map itemViolation
  have hall : items.filter (offending []) = items := by
    apply List.filter_eq_self.mpr
    intro item hmem
    obtain ⟨k, hk⟩ := Option.isSome_iff_exists.mp (hwf item hmem)
    exact offending_iff.mpr ⟨k, hk, by simp⟩
  refine ⟨_, _, _, checkHCLKeys_wellFormed node items h hwf valid,
    checkHCLKeys_wellFormed node items h hwf valid',
    checkHCLKeys_wellFormed node items h hwf [], ?_, ?_, ?_, ?_⟩
  · rw [violations_aggregate, violations_aggregate]
    exact hsl
  · intro hnil
    have h1 : (items.filter (offending valid)).map itemViolation = [] := by
      rw [← violations_aggregate ((items.filter (offending valid)).map itemViolation), hnil]
      rfl
    rw [h1] at hsl
    rw [List.sublist_nil.mp hsl]
    rfl
  · rw [violations_aggregate, hall]
  · rw [violations_aggregate, hall, List.length_map]

/-- Witness of C15: nothing permitted against the permitted set of the parser,
on the two-line document. -/
theorem checkHCLKeys_monotone_witness :
    itemsOf twoLineDocument = some twoLineItems ∧ wellFormed twoLineItems ∧
    (∀ k ∈ ([] : List String), k ∈ permittedKeys) ∧
    ∃ r r' e, checkHCLKeys twoLineDocument [] = .ok r ∧
      checkHCLKeys twoLineDocument permittedKeys = .ok r' ∧
      checkHCLKeys twoLineDocument [] = .ok e ∧
      (violations r').Sublist (violations r) ∧
      (r = none → r' = none) ∧
      violations e = twoLineItems.map itemViolation ∧
      (violations e).length = twoLineItems.length :=
  ⟨rfl, by decide, by simp,
    checkHCLKeys_monotone twoLineDocument twoLineItems rfl (by decide) [] permittedKeys
      (by simp)⟩

end Vault
